import Mathlib

/-!
Shallow embedding of the `virtual_nanocomputer` repository: an 8-bit
accumulator ISA (`src/cpu/instructions.rs`), a flat byte memory
(`src/cpu/memory.rs`), a register file (`src/cpu/registers.rs`), the
fetch-decode-execute engine (`src/cpu/mod.rs`) and the two-section
assembler (`src/assembler.rs`).

Machine bytes (`u8`) are modelled as `Nat`; Rust arithmetic that can
overflow or panic is modelled as `Option`/`Except` with an explicit
`Fault`, reflecting the default (debug-profile, overflow-checked)
behaviour of the crate, which sets no profile overrides.  Rust `Vec<u8>`
is `List Nat`, Rust `&str` is `List Char`.
-/

set_option maxRecDepth 4000

namespace VNano

/-- The 17 opcodes of `enum Opcode` in `src/cpu/instructions.rs`. -/
inductive Opcode where
  | ADD | SUB | MUL | DIV | STA | LDA | JMP | JEQ | JNE
  | JGT | JLT | JZ | JNZ | HLT | INP | OUT | DAT
  deriving DecidableEq, Repr

/-- `Opcode::to_bin` in `src/cpu/instructions.rs` (byte values 0x01..0x11). -/
def Opcode.to_bin : Opcode → Nat
  | .ADD => 0x01
  | .SUB => 0x02
  | .MUL => 0x03
  | .DIV => 0x04
  | .STA => 0x05
  | .LDA => 0x06
  | .JMP => 0x07
  | .JEQ => 0x08
  | .JNE => 0x09
  | .JGT => 0x0A
  | .JLT => 0x0B
  | .JZ  => 0x0C
  | .JNZ => 0x0D
  | .HLT => 0x0E
  | .INP => 0x0F
  | .OUT => 0x10
  | .DAT => 0x11

/-- `Opcode::from_byte` in `src/cpu/instructions.rs`; the
`panic!("Invalid opcode")` arm is `none`. -/
def Opcode.from_byte : Nat → Option Opcode
  | 0x01 => some .ADD
  | 0x02 => some .SUB
  | 0x03 => some .MUL
  | 0x04 => some .DIV
  | 0x05 => some .STA
  | 0x06 => some .LDA
  | 0x07 => some .JMP
  | 0x08 => some .JEQ
  | 0x09 => some .JNE
  | 0x0A => some .JGT
  | 0x0B => some .JLT
  | 0x0C => some .JZ
  | 0x0D => some .JNZ
  | 0x0E => some .HLT
  | 0x0F => some .INP
  | 0x10 => some .OUT
  | 0x11 => some .DAT
  | _ => none

/-- `enum Opcode` has no explicit discriminants, so Rust assigns 0-based
ones in declaration order; `opcode as u8` (used by the assembler's
emission loop) yields this value. -/
def Opcode.discriminant : Opcode → Nat
  | .ADD => 0
  | .SUB => 1
  | .MUL => 2
  | .DIV => 3
  | .STA => 4
  | .LDA => 5
  | .JMP => 6
  | .JEQ => 7
  | .JNE => 8
  | .JGT => 9
  | .JLT => 10
  | .JZ  => 11
  | .JNZ => 12
  | .HLT => 13
  | .INP => 14
  | .OUT => 15
  | .DAT => 16

/-- `struct Instruction` in `src/cpu/instructions.rs`. -/
structure Instruction where
  opcode : Opcode
  operand : Nat
  deriving DecidableEq, Repr

/-- `Instruction::from_byte` in `src/cpu/instructions.rs`: opcode from
`byte & 0b0000_1111`, operand `byte & 0b1111_0000`; the panic inside
`Opcode::from_byte` propagates as `none`. -/
def Instruction.from_byte (b : Nat) : Option Instruction :=
  (Opcode.from_byte (b &&& 0b00001111)).map (fun op => ⟨op, b &&& 0b11110000⟩)

/-- `struct Memory` in `src/cpu/memory.rs` (`size: u32`, `data: Vec<u8>`). -/
structure Memory where
  size : Nat
  data : List Nat
  deriving DecidableEq, Repr

/-- `Memory::new` in `src/cpu/memory.rs`: `vec![0; size]`. -/
def Memory.new (size : Nat) : Memory :=
  ⟨size, List.replicate size 0⟩

/-- `Memory::read` in `src/cpu/memory.rs`: `self.data[address]`; the
out-of-bounds indexing panic is `none`. -/
def Memory.read (m : Memory) (address : Nat) : Option Nat :=
  m.data[address]?

/-- `Memory::write` in `src/cpu/memory.rs`: `self.data[address] = value`;
the out-of-bounds indexing panic is `none`. -/
def Memory.write (m : Memory) (address value : Nat) : Option Memory :=
  if address < m.data.length then some ⟨m.size, m.data.set address value⟩ else none

/-- The panics the CPU can hit at run time: `Opcode::from_byte`'s
`panic!("Invalid opcode")`, `Vec` indexing out of bounds, `u8` division
by zero, `u8` add/sub/mul overflow under the default overflow-checked
profile, and the `unimplemented!()` bodies of `get_input`/`output`. -/
inductive Fault where
  | invalidOpcode
  | outOfBounds
  | divisionByZero
  | overflow
  | notImplemented
  deriving DecidableEq, Repr

/-- `struct CPU` in `src/cpu/mod.rs`.  The single-byte registers PC, MDR
and ACC (`src/cpu/registers.rs`) are plain `get`/`set` cells, so they are
inlined as `Nat` fields; CIR holds `Option<Instruction>`. -/
structure CPU where
  pc : Nat
  mdr : Nat
  cir : Option Instruction
  acc : Nat
  data_memory : Memory
  instruction_memory : Memory
  running : Bool
  deriving DecidableEq, Repr

/-- `CPU::new` in `src/cpu/mod.rs`: zeroed registers (`PC::new` etc. all
initialise to 0, CIR to `None`), fresh memories, `running: false`. -/
def CPU.new (data_memory_size instruction_memory_size : Nat) : CPU :=
  { pc := 0
    mdr := 0
    cir := none
    acc := 0
    data_memory := Memory.new data_memory_size
    instruction_memory := Memory.new instruction_memory_size
    running := false }

/-- The loop body of `CPU::load_program`: write each byte of the program
at consecutive addresses; a failing write (program longer than the
memory) aborts with `none`. -/
def writeFrom (m : Memory) (i : Nat) : List Nat → Option Memory
  | [] => some m
  | b :: rest =>
    match m.write i b with
    | none => none
    | some m' => writeFrom m' (i + 1) rest

/-- `CPU::load_program` in `src/cpu/mod.rs`: writes `program[i]` to
instruction memory address `i` for each `i`; touches nothing else. -/
def CPU.load_program (c : CPU) (program : List Nat) : Option CPU :=
  (writeFrom c.instruction_memory 0 program).map
    (fun im => { c with instruction_memory := im })

/-- `CPU::fetch` in `src/cpu/mod.rs`: read instruction memory at `pc`
into MDR and set `pc := pc + 2` (a `u8` addition, which overflows past
255).  A fault carries the registers' last-valid state. -/
def CPU.fetch (c : CPU) : Except (Fault × CPU) CPU :=
  let address := c.pc
  match c.instruction_memory.read address with
  | none => .error (.outOfBounds, c)
  | some instruction =>
    if address + 2 < 256 then
      .ok { c with pc := address + 2, mdr := instruction }
    else
      .error (.overflow, c)

/-- `CPU::decode` in `src/cpu/mod.rs`: `CIR::set` decodes the MDR byte
with `Instruction::from_byte` (`src/cpu/registers.rs`). -/
def CPU.decode (c : CPU) : Except (Fault × CPU) CPU :=
  match Instruction.from_byte c.mdr with
  | none => .error (.invalidOpcode, c)
  | some instr => .ok { c with cir := some instr }

/-- `CPU::execute` in `src/cpu/mod.rs`: the big match on the decoded
instruction.  `u8` arithmetic is overflow-checked; `acc < 0` on an
unsigned accumulator (JLT) is the comparison the source writes, which is
never true. -/
def CPU.execute (c : CPU) : Except (Fault × CPU) CPU :=
  match c.cir with
  | none => .ok c
  | some instr =>
    let operand_addr := instr.operand
    match instr.opcode with
    | .ADD =>
      match c.data_memory.read operand_addr with
      | none => .error (.outOfBounds, c)
      | some operand =>
        if c.acc + operand < 256 then .ok { c with acc := c.acc + operand }
        else .error (.overflow, c)
    | .SUB =>
      match c.data_memory.read operand_addr with
      | none => .error (.outOfBounds, c)
      | some operand =>
        if operand ≤ c.acc then .ok { c with acc := c.acc - operand }
        else .error (.overflow, c)
    | .MUL =>
      match c.data_memory.read operand_addr with
      | none => .error (.outOfBounds, c)
      | some operand =>
        if c.acc * operand < 256 then .ok { c with acc := c.acc * operand }
        else .error (.overflow, c)
    | .DIV =>
      match c.data_memory.read operand_addr with
      | none => .error (.outOfBounds, c)
      | some operand =>
        if operand = 0 then .error (.divisionByZero, c)
        else .ok { c with acc := c.acc / operand }
    | .STA =>
      match c.data_memory.write operand_addr c.acc with
      | none => .error (.outOfBounds, c)
      | some dm => .ok { c with data_memory := dm }
    | .LDA =>
      match c.data_memory.read operand_addr with
      | none => .error (.outOfBounds, c)
      | some operand => .ok { c with acc := operand }
    | .JMP => .ok { c with pc := operand_addr }
    | .JEQ => .ok (if c.acc = 0 then { c with pc := operand_addr } else c)
    | .JNE => .ok (if c.acc ≠ 0 then { c with pc := operand_addr } else c)
    | .JGT => .ok (if c.acc > 0 then { c with pc := operand_addr } else c)
    | .JLT => .ok (if c.acc < 0 then { c with pc := operand_addr } else c)
    | .JZ  => .ok (if c.acc = 0 then { c with pc := operand_addr } else c)
    | .JNZ => .ok (if c.acc ≠ 0 then { c with pc := operand_addr } else c)
    | .HLT => .ok { c with running := false }
    | .INP => .error (.notImplemented, c)
    | .OUT => .error (.notImplemented, c)
    | .DAT =>
      match c.data_memory.write operand_addr instr.operand with
      | none => .error (.outOfBounds, c)
      | some dm => .ok { c with data_memory := dm }

/-- One iteration of the `while self.running` loop in `CPU::start`:
fetch, then decode, then execute. -/
def CPU.step (c : CPU) : Except (Fault × CPU) CPU := do
  let c1 ← c.fetch
  let c2 ← c1.decode
  c2.execute

/-- The `while self.running { ... }` loop of `CPU::start`, with explicit
fuel (the Rust loop has no bound; `fuel` iterations suffice for every
terminating run considered here). -/
def CPU.runLoop : Nat → CPU → Except (Fault × CPU) CPU
  | 0, c => .ok c
  | fuel + 1, c =>
    if c.running then
      match c.step with
      | .error e => .error e
      | .ok c' => CPU.runLoop fuel c'
    else
      .ok c

/-- `CPU::start` in `src/cpu/mod.rs`: set `running := true` and loop. -/
def CPU.start (fuel : Nat) (c : CPU) : Except (Fault × CPU) CPU :=
  CPU.runLoop fuel { c with running := true }

/-! ### Assembler (`src/assembler.rs`)

Rust `&str`/`String` values are modelled as `List Char`; `str::replace`,
`str::split` and `str::starts_with` are embedded below with Rust's
semantics (replace all non-overlapping occurrences left to right; split
keeps empty segments). -/

/-- Rust `str::replace(pat, rep)`: replace every non-overlapping
occurrence of `pat`, scanning left to right (structural fuel = length of
the scanned text; one character is consumed per step). -/
def replaceFuel (rep : List Char) : Nat → List Char → List Char → List Char
  | 0, s, _ => s
  | _ + 1, [], _ => []
  | fuel + 1, c :: rest, pat =>
    if pat ≠ [] ∧ pat.isPrefixOf (c :: rest) then
      rep ++ replaceFuel rep fuel ((c :: rest).drop pat.length) pat
    else
      c :: replaceFuel rep fuel rest pat

/-- Rust `s.replace(pat, rep)`. -/
def strReplace (s pat rep : List Char) : List Char :=
  replaceFuel rep s.length s pat

/-- Rust `str::split(sep)` for a single-character separator: empty
segments are kept, and splitting the empty string yields `[""]`. -/
def strSplit (sep : Char) : List Char → List (List Char)
  | [] => [[]]
  | c :: rest =>
    if c = sep then
      [] :: strSplit sep rest
    else
      match strSplit sep rest with
      | [] => [[c]]
      | seg :: segs => (c :: seg) :: segs

/-- Rust `u8::from_str` (`s.parse::<u8>()`): an optional leading `+`,
then one or more decimal digits, value at most 255; anything else is a
parse error (`none`). -/
def parse_u8 (s : List Char) : Option Nat :=
  let digits := match s with
    | '+' :: rest => rest
    | _ => s
  if digits = [] then none
  else if digits.all Char.isDigit then
    let v := digits.foldl (fun acc c => acc * 10 + (c.toNat - 48)) 0
    if v < 256 then some v else none
  else none

/-- `Opcode::from_str` in `src/cpu/instructions.rs`: case-sensitive
exact-match on the 17 mnemonics; the panic arm is `none`. -/
def Opcode.from_str (s : List Char) : Option Opcode :=
  if s = "ADD".data then some .ADD
  else if s = "SUB".data then some .SUB
  else if s = "MUL".data then some .MUL
  else if s = "DIV".data then some .DIV
  else if s = "STA".data then some .STA
  else if s = "LDA".data then some .LDA
  else if s = "JMP".data then some .JMP
  else if s = "JEQ".data then some .JEQ
  else if s = "JNE".data then some .JNE
  else if s = "JGT".data then some .JGT
  else if s = "JLT".data then some .JLT
  else if s = "JZ".data then some .JZ
  else if s = "JNZ".data then some .JNZ
  else if s = "HLT".data then some .HLT
  else if s = "INP".data then some .INP
  else if s = "OUT".data then some .OUT
  else if s = "DAT".data then some .DAT
  else none

/-- `enum OperandType` in `src/assembler.rs`. -/
inductive OperandType where
  | Label (label : List Char)
  | Value (value : Nat)
  deriving DecidableEq, Repr

/-- `struct DataLine` in `src/assembler.rs`. -/
structure DataLine where
  label : Option (List Char)
  value : Option Nat
  deriving DecidableEq, Repr

/-- `struct CodeLine` in `src/assembler.rs`. -/
structure CodeLine where
  label : Option (List Char)
  opcode : Option Opcode
  operand : Option OperandType
  deriving DecidableEq, Repr

/-- `enum CurrentSection` in `src/assembler.rs`. -/
inductive CurrentSection where
  | Data
  | Code
  | NoSection
  deriving DecidableEq, Repr

/-- `clean_source` in `src/assembler.rs`: `replace("//", "\n")`, then
`replace("  ", " ")`, then `replace("\r", "")`. -/
def clean_source (s : List Char) : List Char :=
  strReplace (strReplace (strReplace s "//".data "\n".data) "  ".data " ".data)
    "\r".data "".data

/-- The operand closure in `assemble` (`src/assembler.rs` lines
135-141): a token starting with `0x` has every occurrence of `0x`
removed and the rest parsed with `parse::<u8>()` (whose panic on failure
is `none`); any other token is a label reference. -/
def parseOperand (s : List Char) : Option OperandType :=
  if ("0x".data).isPrefixOf s then
    (parse_u8 (strReplace s "0x".data "".data)).map OperandType.Value
  else
    some (OperandType.Label s)

/-- Rust `char as u8`: truncation of the scalar value to 8 bits. -/
def charToU8 (c : Char) : Nat :=
  c.toNat % 256

/-- The body of the line loop in `assemble` (`src/assembler.rs` lines
90-155): skip empty and `//` lines, re-clean the line, switch sections
on `.data`/`.code`, and parse space-indented lines positionally as
`LABEL DAT VALUE` (data) or `LABEL OPCODE OPERAND` (code); the panics
(`unwrap` of value/mnemonic/operand parses, `"Invalid section"`) are
`none`.  Lines starting with neither `.` nor a space fall through both
branches and are ignored. -/
def processLine (st : CurrentSection × List DataLine × List CodeLine)
    (rawLine : List Char) :
    Option (CurrentSection × List DataLine × List CodeLine) :=
  let (sec, ds, cs) := st
  if rawLine = [] ∨ ("//".data).isPrefixOf rawLine then
    some st
  else
    let line := clean_source rawLine
    if (".".data).isPrefixOf line then
      if (".data".data).isPrefixOf line then some (.Data, ds, cs)
      else if (".code".data).isPrefixOf line then some (.Code, ds, cs)
      else some st
    else if (" ".data).isPrefixOf line then
      let toks := (strSplit ' ' line).drop 1
      match sec with
      | .Data =>
        let label := toks[0]?
        match toks[2]? with
        | none => some (sec, ds ++ [⟨label, none⟩], cs)
        | some vtok =>
          match parse_u8 vtok with
          | none => none
          | some v => some (sec, ds ++ [⟨label, some v⟩], cs)
      | .Code =>
        let label := toks[0]?
        match toks[1]? with
        | none => some (sec, ds, cs ++ [⟨label, none, none⟩])
        | some otok =>
          match Opcode.from_str otok with
          | none => none
          | some op =>
            match toks[2]? with
            | none => some (sec, ds, cs ++ [⟨label, some op, none⟩])
            | some optok =>
              match parseOperand optok with
              | none => none
              | some o => some (sec, ds, cs ++ [⟨label, some op, some o⟩])
      | .NoSection => none
    else
      some st

/-- The emission loops of `assemble` (`src/assembler.rs` lines 157-202):
data lines push their label's characters (as `u8`) then the value byte;
code lines push the opcode's discriminant (`opcode as u8`) then either
the numeric operand byte or the operand label's characters. -/
def emitSections (ds : List DataLine) (cs : List CodeLine) : List Nat :=
  let afterData := ds.foldl
    (fun bin line =>
      let bin := match line.label with
        | some label => bin ++ label.map charToU8
        | none => bin
      match line.value with
      | some v => bin ++ [v]
      | none => bin)
    []
  cs.foldl
    (fun bin line =>
      let bin := match line.opcode with
        | some op => bin ++ [op.discriminant]
        | none => bin
      match line.operand with
      | some (.Label label) => bin ++ label.map charToU8
      | some (.Value v) => bin ++ [v]
      | none => bin)
    afterData

/-- `assemble` in `src/assembler.rs`, from source text (the file-reading
wrapper is out of scope): clean the whole source, split into lines,
run the parsing loop, then emit both sections. -/
def assemble (source : List Char) : Option (List Nat) :=
  let lines := strSplit '\n' (clean_source source)
  (lines.foldlM processLine (.NoSection, [], [])).map
    (fun st => emitSections st.2.1 st.2.2)

/-! ### Helper lemmas -/

instance {ε α : Type} [DecidableEq ε] [DecidableEq α] : DecidableEq (Except ε α) :=
  fun x y =>
    match x, y with
    | .ok a, .ok b =>
      if h : a = b then .isTrue (by rw [h]) else .isFalse (by simp [h])
    | .error e, .error f =>
      if h : e = f then .isTrue (by rw [h]) else .isFalse (by simp [h])
    | .ok _, .error _ => .isFalse (by simp)
    | .error _, .ok _ => .isFalse (by simp)

/-- On bytes, `& 0b0000_1111` is the low nibble (`% 16`) and
`& 0b1111_0000` clears the low nibble. -/
theorem land_nibble (b : Nat) (hb : b < 256) :
    b &&& 15 = b % 16 ∧ b &&& 240 = b - b % 16 := by
  have h : ∀ x : Fin 256,
      (x.val &&& 15 = x.val % 16) ∧ (x.val &&& 240 = x.val - x.val % 16) := by decide
  exact h ⟨b, hb⟩

/-! ### Claim theorems -/

/-- C2: for every one of the 17 valid opcodes `o`, decoding the byte
produced by encoding `o` yields `o` back:
`Opcode::from_byte (Opcode::to_bin o) = o`. -/
theorem opcode_encode_decode_roundtrip :
    ∀ o : Opcode, Opcode.from_byte o.to_bin = some o := by
  intro o
  cases o <;> rfl

/-- C10: whenever `Instruction::from_byte b` produces an instruction,
its opcode is decoded from the low nibble `b % 16` alone, its operand is
`b` with the low nibble cleared (`b - b % 16`), and in particular every
decoded operand is a multiple of 16. -/
theorem instruction_from_byte_nibble_decomp (b : Nat) (hb : b < 256) :
    Instruction.from_byte b =
      (Opcode.from_byte (b % 16)).map (fun op => ⟨op, b - b % 16⟩) ∧
    ∀ i, Instruction.from_byte b = some i → 16 ∣ i.operand := by
  have key : ∀ x : Fin 256, Instruction.from_byte x.val =
      (Opcode.from_byte (x.val % 16)).map
        (fun op => ⟨op, x.val - x.val % 16⟩) := by decide
  have h1 := key ⟨b, hb⟩
  refine ⟨h1, fun i hi => ?_⟩
  rw [h1] at hi
  cases hop : Opcode.from_byte (b % 16) with
  | none => rw [hop] at hi; simp at hi
  | some op =>
    rw [hop] at hi
    replace hi : some (⟨op, b - b % 16⟩ : Instruction) = some i := hi
    injection hi with h2
    have h3 : i.operand = b - b % 16 := by rw [← h2]
    rw [h3]
    omega

/-- Witness for C10 at the concrete byte 0x26. -/
theorem instruction_from_byte_nibble_decomp_witness :
    (0x26 : Nat) < 256 ∧
    (Instruction.from_byte 0x26 =
      (Opcode.from_byte (0x26 % 16)).map (fun op => ⟨op, 0x26 - 0x26 % 16⟩) ∧
    ∀ i, Instruction.from_byte 0x26 = some i → 16 ∣ i.operand) :=
  ⟨by decide, instruction_from_byte_nibble_decomp 0x26 (by decide)⟩

/-- C1: evaluation at the failing input.  Load the two-byte program
`[0x01, 0x05]` (ADD with operand byte 5 under the spec's two-byte
format) into a fresh CPU and run one cycle: the byte 5 sits at
instruction-memory address 1, yet the decoded instruction in CIR is
`ADD` with operand 0 — `decode` never reads the byte after the opcode
byte; it takes the operand from the high nibble of the fetched byte. -/
theorem decode_ignores_second_byte :
    ((CPU.new 16 16).load_program [0x01, 0x05]).map
        (fun c1 => (CPU.step { c1 with running := true }).map
          (fun c2 => (c2.instruction_memory.read 1, c2.cir)))
      = some (.ok (some 5, some ⟨Opcode.ADD, 0⟩)) ∧
    some (⟨Opcode.ADD, 0⟩ : Instruction) ≠ some (⟨Opcode.ADD, 5⟩ : Instruction) := by
  constructor
  · decide
  · decide

/-- The source program of the assembler's own module example, with a
label `A` declared in `.data` and referenced in `.code` (code lines
carry mandatory positional labels `L`, `M`). -/
def labelDemoSource : List Char :=
  ".data\n A DAT 4\n.code\n L LDA A\n M HLT".data

/-- C3: evaluation at the failing input.  Assembling a program that
declares label `A` produces the image `[65, 4, 5, 65, 13]`: the ASCII
byte of the label text `A` (65) appears in the binary — once for the
data entry and once for the unresolved label operand of `LDA A`. -/
theorem assemble_emits_label_text :
    assemble labelDemoSource = some [65, 4, 5, 65, 13] ∧
    charToU8 'A' = 65 ∧ 65 ∈ [65, 4, 5, 65, 13] := by
  refine ⟨by decide, by decide, by decide⟩

/-- C4 counterexample: the operand token `0x10` parses to the numeric
value 10, not 16 — after stripping the `0x` marker the digits are parsed
as decimal, not hexadecimal. -/
theorem hex_token_parses_as_decimal :
    parseOperand "0x10".data = some (OperandType.Value 10) ∧
    some (OperandType.Value 10) ≠ some (OperandType.Value 16) := by
  constructor
  · decide
  · decide

/-- C4 amended: an operand token without the `0x` marker is a label
reference; a token with the marker has every `0x` removed and the rest
parsed as a *decimal* u8, so `0x10` yields 10 and tokens with hex
letters such as `0x1A` fail to parse. -/
theorem operand_parsing_amended :
    (∀ s : List Char, ("0x".data).isPrefixOf s = false →
      parseOperand s = some (OperandType.Label s)) ∧
    parseOperand "0x10".data = some (OperandType.Value 10) ∧
    parseOperand "0x1A".data = none := by
  refine ⟨fun s h => ?_, by decide, by decide⟩
  simp [parseOperand, h]

/-- Witness for C4's amended theorem at the concrete token `LOOP`. -/
theorem operand_parsing_amended_witness :
    ("0x".data).isPrefixOf "LOOP".data = false ∧
    parseOperand "LOOP".data = some (OperandType.Label "LOOP".data) :=
  ⟨by decide, operand_parsing_amended.1 "LOOP".data (by decide)⟩

/-- ACC = 255 about to execute `ADD` against a data cell holding 1. -/
def addOverflowCPU : CPU :=
  { CPU.new 1 1 with acc := 255, cir := some ⟨Opcode.ADD, 0⟩, data_memory := ⟨1, [1]⟩ }

/-- ACC = 0 about to execute `SUB` against a data cell holding 1. -/
def subUnderflowCPU : CPU :=
  { CPU.new 1 1 with acc := 0, cir := some ⟨Opcode.SUB, 0⟩, data_memory := ⟨1, [1]⟩ }

/-- ACC = 16 about to execute `MUL` against a data cell holding 16. -/
def mulOverflowCPU : CPU :=
  { CPU.new 1 1 with acc := 16, cir := some ⟨Opcode.MUL, 0⟩, data_memory := ⟨1, [16]⟩ }

/-- C9: evaluation at the failing inputs.  ADD at ACC = 255 with operand
value 1, SUB at ACC = 0 with operand value 1, and MUL at ACC = 16 with
operand value 16 each fault with an arithmetic-overflow panic instead of
wrapping mod 256: the source computes `acc + v`, `acc - v`, `acc * v`
with plain (overflow-checked) `u8` arithmetic, not `wrapping_*`. -/
theorem arith_unchecked_overflow_faults :
    CPU.execute addOverflowCPU = .error (.overflow, addOverflowCPU) ∧
    CPU.execute subUnderflowCPU = .error (.overflow, subUnderflowCPU) ∧
    CPU.execute mulOverflowCPU = .error (.overflow, mulOverflowCPU) := by
  refine ⟨by decide, by decide, by decide⟩

/-- Characterisation of `load_program`'s write loop: when the program
fits, it overwrites `data[i .. i + p.length)` with `p` and touches
nothing else. -/
theorem writeFrom_spec (p : List Nat) :
    ∀ (m : Memory) (i : Nat), i + p.length ≤ m.data.length →
      writeFrom m i p =
        some ⟨m.size, m.data.take i ++ p ++ m.data.drop (i + p.length)⟩ := by
  induction p with
  | nil =>
    intro m i h
    cases m with
    | mk size data =>
      simp [writeFrom, List.take_append_drop]
  | cons b rest ih =>
    intro m i h
    have hi : i < m.data.length := by
      simp only [List.length_cons] at h
      omega
    have hw : m.write i b = some ⟨m.size, m.data.set i b⟩ := by
      simp [Memory.write, hi]
    have hlen : (m.data.set i b).length = m.data.length := by
      simp
    have hrec := ih ⟨m.size, m.data.set i b⟩ (i + 1) (by
      simp only [hlen]
      simp only [List.length_cons] at h
      omega)
    simp only [writeFrom, hw, hrec]
    congr 1
    have hset := List.set_eq_take_cons_drop b hi
    rw [hset]
    have hlt : (m.data.take i).length = i := List.length_take_of_le (le_of_lt hi)
    congr 1
    have e1 : List.take (i + 1) (m.data.take i) = m.data.take i := by
      rw [List.take_take]
      congr 1
      omega
    have e2 : i + 1 - (m.data.take i).length = 1 := by rw [hlt]; omega
    have e3 : List.drop (i + 1 + rest.length) (m.data.take i) = [] :=
      List.drop_eq_nil_of_le (by rw [hlt]; omega)
    have e4 : i + 1 + rest.length - (m.data.take i).length = rest.length + 1 := by
      rw [hlt]; omega
    rw [List.take_append_eq_append_take, List.drop_append_eq_append_drop, e1, e2, e3, e4,
      List.drop_succ_cons, List.drop_drop, List.take_cons, List.take_zero]
    simp only [List.length_cons, List.nil_append, List.append_assoc, List.singleton_append,
      List.cons_append]
    have e5 : i + 1 + rest.length = i + (rest.length + 1) := by omega
    rw [e5]
    omega

/-- A CPU whose `running` flag is down exits `CPU::start`'s loop at
once, whatever fuel remains. -/
theorem runLoop_halted (n : Nat) (c : CPU) (h : c.running = false) :
    CPU.runLoop n c = .ok c := by
  cases n with
  | zero => rfl
  | succ k => simp [CPU.runLoop, h]

/-- C5 amended: `load_program` copies the image byte-for-byte into
instruction memory from address 0 (when the image fits) and modifies
nothing else — in particular it does *not* reset the program counter or
the running flag; those are 0 and `false` only on a freshly constructed
CPU, where `CPU::new` initialises them. -/
theorem load_program_amended :
    (∀ (c : CPU) (p : List Nat), p.length ≤ c.instruction_memory.data.length →
      c.load_program p = some
        { c with instruction_memory :=
            ⟨c.instruction_memory.size, p ++ c.instruction_memory.data.drop p.length⟩ }) ∧
    (∀ d i : Nat, (CPU.new d i).pc = 0 ∧ (CPU.new d i).running = false) := by
  constructor
  · intro c p h
    unfold CPU.load_program
    rw [writeFrom_spec p c.instruction_memory 0 (by omega)]
    simp
  · intro d i
    exact ⟨rfl, rfl⟩

/-- C5 counterexample: a CPU whose program counter is 5 still has
PC = 5 after `load_program [14]` — the claim's "resets the program
counter to 0" fails. -/
theorem load_program_keeps_pc :
    (({ CPU.new 4 4 with pc := 5 }).load_program [14]).map CPU.pc = some 5 ∧
    (5 : Nat) ≠ 0 := by
  constructor
  · decide
  · decide

/-- Witness for C5's amended theorem: loading `[7]` into a fresh
2-byte-memory CPU. -/
theorem load_program_amended_witness :
    ([7].length ≤ (CPU.new 2 2).instruction_memory.data.length) ∧
    (CPU.new 2 2).load_program [7] = some
      { CPU.new 2 2 with instruction_memory :=
          ⟨(CPU.new 2 2).instruction_memory.size,
           [7] ++ (CPU.new 2 2).instruction_memory.data.drop [7].length⟩ } :=
  ⟨by decide, load_program_amended.1 (CPU.new 2 2) [7] (by decide)⟩

/-- C8: on a memory whose backing vector has `size` elements (as every
memory built by `Memory::new` and preserved by `write` does), reading
or writing any address `addr ≥ size` fails with the out-of-bounds
panic (`none`) — no wrap-around to a smaller address ever happens,
since the failing operation returns no value and changes no cell. -/
theorem memory_oob_fails (m : Memory) (addr : Nat)
    (hwf : m.data.length = m.size) (h : m.size ≤ addr) :
    m.read addr = none ∧ ∀ v, m.write addr v = none := by
  constructor
  · unfold Memory.read
    exact List.getElem?_eq_none (by omega)
  · intro v
    unfold Memory.write
    rw [if_neg (by omega)]

/-- Witness for C8: a 4-byte memory at address 7. -/
theorem memory_oob_fails_witness :
    ((Memory.new 4).data.length = (Memory.new 4).size ∧ (Memory.new 4).size ≤ 7) ∧
    ((Memory.new 4).read 7 = none ∧ ∀ v, (Memory.new 4).write 7 v = none) :=
  ⟨⟨by decide, by decide⟩, memory_oob_fails (Memory.new 4) 7 (by decide) (by decide)⟩

/-- C7: a full fetch-decode-execute cycle on an instruction byte whose
low nibble is 4 (DIV), when the data-memory cell at the decoded operand
address holds 0, aborts the run with the division-by-zero fault, and
the faulted state's accumulator equals the accumulator before the
cycle. -/
theorem div_by_zero_fault (c : CPU) (b : Nat) (hb : b < 256)
    (h1 : c.instruction_memory.read c.pc = some b)
    (h2 : b % 16 = 4)
    (h3 : c.pc + 2 < 256)
    (h4 : c.data_memory.read (b - b % 16) = some 0) :
    ∃ cf, CPU.step c = .error (.divisionByZero, cf) ∧ cf.acc = c.acc := by
  obtain ⟨hl1, hl2⟩ := land_nibble b hb
  have hop : Instruction.from_byte b = some ⟨Opcode.DIV, b &&& 240⟩ := by
    unfold Instruction.from_byte
    have : Opcode.from_byte (b &&& 15) = some Opcode.DIV := by
      rw [hl1, h2]
      rfl
    rw [this]
    rfl
  have h4' : c.data_memory.read (b &&& 240) = some 0 := by
    rw [hl2]
    exact h4
  refine ⟨{ c with pc := c.pc + 2, mdr := b, cir := some ⟨Opcode.DIV, b &&& 240⟩ },
          ?_, rfl⟩
  simp only [CPU.step, CPU.fetch, CPU.decode, CPU.execute, h1, if_pos h3, hop, h4',
    bind, Except.bind]
  simp

/-- A CPU one fetch away from a DIV instruction (byte 0x04) whose
operand address holds 0. -/
def divZeroCPU : CPU :=
  { CPU.new 1 1 with instruction_memory := ⟨1, [4]⟩ }

/-- Witness for C7 at `divZeroCPU`. -/
theorem div_by_zero_fault_witness :
    (4 : Nat) < 256 ∧
    (∃ cf, CPU.step divZeroCPU = .error (.divisionByZero, cf) ∧
      cf.acc = divZeroCPU.acc) :=
  ⟨by decide,
   div_by_zero_fault divZeroCPU 4 (by decide) (by decide) (by decide) (by decide)
     (by decide)⟩

/-- C6 amended: running a freshly loaded single-`HLT` image (byte 0x0E)
halts after exactly one fetch-decode-execute cycle — the one `step`
already yields the final state, and any amount of further fuel changes
nothing — with ACC still at its initial value; but PC has advanced to
2, the fetch latch holds the fetched byte 0x0E, and the instruction
register holds the decoded HLT, so not every register is at its initial
value. -/
theorem hlt_single_cycle (ds k : Nat) :
    ∃ c1 cf, (CPU.new ds (k + 1)).load_program [0x0E] = some c1 ∧
      CPU.step { c1 with running := true } = .ok cf ∧
      cf.running = false ∧
      cf.acc = (CPU.new ds (k + 1)).acc ∧
      cf.pc = 2 ∧ cf.mdr = 0x0E ∧ cf.cir = some ⟨Opcode.HLT, 0⟩ ∧
      ∀ n, CPU.start (n + 1) c1 = .ok cf := by
  refine ⟨{ CPU.new ds (k + 1) with instruction_memory := ⟨k + 1, 14 :: List.replicate k 0⟩ },
          { CPU.new ds (k + 1) with
              instruction_memory := ⟨k + 1, 14 :: List.replicate k 0⟩,
              pc := 2, mdr := 14, cir := some ⟨Opcode.HLT, 0⟩, running := false },
          ?_, ?_, rfl, rfl, rfl, rfl, rfl, ?_⟩
  · simp [CPU.load_program, writeFrom, Memory.write, Memory.new, CPU.new,
      List.replicate_succ]
  · simp [CPU.step, CPU.fetch, CPU.decode, CPU.execute, Memory.read,
      Instruction.from_byte, Opcode.from_byte, CPU.new, Memory.new, bind, Except.bind,
      (by decide : 14 &&& 15 = 14), (by decide : 14 &&& 240 = 0)]
  · intro n
    unfold CPU.start
    simp [CPU.runLoop, CPU.step, CPU.fetch, CPU.decode, CPU.execute, Memory.read,
      Instruction.from_byte, Opcode.from_byte, CPU.new, Memory.new, bind, Except.bind,
      (by decide : 14 &&& 15 = 14), (by decide : 14 &&& 240 = 0), runLoop_halted]

/-- C6 counterexample: after the single-`HLT` program halts, PC is 2,
not its initial value 0. -/
theorem hlt_registers_not_initial :
    (((CPU.new 16 16).load_program [0x0E]).map (fun c1 => (CPU.start 2 c1).map CPU.pc))
      = some (.ok 2) ∧ (2 : Nat) ≠ 0 := by
  constructor
  · decide
  · decide

end VNano
